import Mathlib

/-!
Verification of the core lowering engine of a TypeScript-to-WebAssembly
compiler (src/src/compiler.ts) against its natural-language specification.

The development shallowly embeds the data model and the operations the
checked claims depend on: type kinds and their flags, the typed IR
expression tree produced by the module builder, the small-integer wrap
helper, the integer conversion matrix, the flow analyzer used to prove
"all paths return", the trampoline synthesizer and direct-call padding,
static string interning, the monotonic memory-segment allocator, inlined
constant expansion, and assignment rejection for constants.

Machine integers are modelled as `Int`/`Nat` with explicit reduction
modulo 2^32 where 32-bit semantics matter.
-/

namespace Compiler

/-! ## Type kinds and flags

`TypeKind` mirrors the `TypeKind` enum consumed by compiler.ts. The flag
and size projections live in types.ts, which is not part of the sources;
they are modelled from the spec (§3 "Type: kind (i8…u64, f32, f64, isize,
usize, bool, void), size in bits, signed/float/small/long/integer flags",
§4.4 "small integers {i8, i16, u8, u16, bool}", §2 "pointer-width
usize/isize that depend on target"). -/

inductive TypeKind where
  | i8 | i16 | i32 | i64 | isize
  | u8 | u16 | u32 | u64 | usize
  | bool | f32 | f64 | void
  deriving DecidableEq, Repr

/-- Modelled from the spec: the size in bits of each type kind; `isize`
and `usize` are pointer-width, i.e. 64 on a 64-bit target and 32
otherwise (types.ts is not part of src/). -/
def TypeKind.size (is64 : Bool) : TypeKind → Nat
  | .i8 => 8 | .i16 => 16 | .i32 => 32 | .i64 => 64
  | .u8 => 8 | .u16 => 16 | .u32 => 32 | .u64 => 64
  | .isize => if is64 then 64 else 32
  | .usize => if is64 then 64 else 32
  | .bool => 1 | .f32 => 32 | .f64 => 64 | .void => 0

/-- Modelled from the spec: the INTEGER type flag. -/
def TypeKind.isInteger : TypeKind → Bool
  | .i8 | .i16 | .i32 | .i64 | .isize
  | .u8 | .u16 | .u32 | .u64 | .usize | .bool => true
  | _ => false

/-- Modelled from the spec: the FLOAT type flag. -/
def TypeKind.isFloat : TypeKind → Bool
  | .f32 | .f64 => true
  | _ => false

/-- Modelled from the spec: the SIGNED type flag (signed integers and
floats carry it; it is only consulted for integers here). -/
def TypeKind.isSigned : TypeKind → Bool
  | .i8 | .i16 | .i32 | .i64 | .isize | .f32 | .f64 => true
  | _ => false

/-- Modelled from the spec: the SMALL type flag, set exactly on
i8, i16, u8, u16 and bool. -/
def TypeKind.isSmall : TypeKind → Bool
  | .i8 | .i16 | .u8 | .u16 | .bool => true
  | _ => false

/-- Modelled from the spec: the LONG type flag, set on 64-bit integers
(i64, u64, and isize/usize on a 64-bit target). -/
def TypeKind.isLong (is64 : Bool) : TypeKind → Bool
  | .i64 | .u64 => true
  | .isize | .usize => is64
  | _ => false

/-- Native IR type projection (`toNativeType`): small integers project to
i32, pointer-width types per target. -/
inductive NativeType where
  | i32 | i64 | f32 | f64 | none
  deriving DecidableEq, Repr

def TypeKind.toNativeType (is64 : Bool) : TypeKind → NativeType
  | .i8 | .i16 | .u8 | .u16 | .bool | .i32 | .u32 => .i32
  | .i64 | .u64 => .i64
  | .isize | .usize => if is64 then .i64 else .i32
  | .f32 => .f32
  | .f64 => .f64
  | .void => .none

/-! ## IR expressions

A deep embedding of the expression nodes the module builder
(`module.createXyz`) produces; 64-bit constants carry the low and high
32-bit words separately exactly like `createI64(low, high)`. -/

inductive UnaryOp where
  | wrapI64 | extendI32 | extendU32
  | eqzI32 | eqzI64
  | promoteF32 | demoteF64
  | truncF32ToI32 | truncF32ToU32 | truncF32ToI64 | truncF32ToU64
  | truncF64ToI32 | truncF64ToU32 | truncF64ToI64 | truncF64ToU64
  | convertI32ToF32 | convertU32ToF32 | convertI64ToF32 | convertU64ToF32
  | convertI32ToF64 | convertU32ToF64 | convertI64ToF64 | convertU64ToF64
  deriving DecidableEq, Repr

inductive BinaryOp where
  | shlI32 | shrI32 | shrU32 | andI32 | addI32 | subI32 | mulI32
  | addI64
  deriving DecidableEq, Repr

inductive Expr where
  | constI32 (value : Int)
  | constI64 (low high : Int)
  | constF32 (value : Int)
  | constF64 (value : Int)
  | unary (op : UnaryOp) (operand : Expr)
  | binary (op : BinaryOp) (left right : Expr)
  | getLocal (index : Nat) (type : NativeType)
  | setLocal (index : Nat) (value : Expr)
  | teeLocal (index : Nat) (value : Expr)
  | getGlobal (name : String) (type : NativeType)
  | setGlobal (name : String) (value : Expr)
  | block (label : Option String) (body : List Expr) (type : NativeType)
  | loop (label : String) (body : Expr)
  | ifElse (condition : Expr) (ifTrue : Expr) (ifFalse : Option Expr)
  | breakTo (label : String) (condition : Option Expr)
  | switch (names : List String) (defaultName : String) (condition : Expr)
  | call (target : String) (operands : List Expr) (returnType : NativeType)
  | callImport (target : String) (operands : List Expr) (returnType : NativeType)
  | ret (value : Option Expr)
  | drop (operand : Expr)
  | unreachable
  | nop

/-- `toNativeZero`: the zero constant of a type's native projection. -/
def TypeKind.toNativeZero (is64 : Bool) (t : TypeKind) : Expr :=
  match t.toNativeType is64 with
  | .i32 => .constI32 0
  | .i64 => .constI64 0 0
  | .f32 => .constF32 0
  | .f64 => .constF64 0
  | .none => .unreachable

/-! ## 32-bit arithmetic helpers -/

/-- Reduce to the unsigned 32-bit representative in `[0, 2^32)`. -/
def toU32 (v : Int) : Int := v % 4294967296

/-- Reduce to the signed 32-bit representative in `[-2^31, 2^31)`. -/
def toS32 (v : Int) : Int :=
  let u := toU32 v
  if u < 2147483648 then u else u - 4294967296

/-! ## The small-integer wrap helper (`makeSmallIntegerWrap`)

Transcribed from compiler.ts lines 5331–5380. The source throws
"small integer type expected" on any other kind; the embedding returns
`none` there. -/

def makeSmallIntegerWrap (expr : Expr) (type : TypeKind) : Option Expr :=
  match type with
  | .i8 =>
      some (.binary .shrI32 (.binary .shlI32 expr (.constI32 24)) (.constI32 24))
  | .i16 =>
      some (.binary .shrI32 (.binary .shlI32 expr (.constI32 16)) (.constI32 16))
  | .u8 =>
      some (.binary .andI32 expr (.constI32 0xff))
  | .u16 =>
      some (.binary .andI32 expr (.constI32 0xffff))
  | .bool =>
      some (.binary .andI32 expr (.constI32 0x1))
  | _ => none

/-- The tail of `compileBinaryExpression` (compiler.ts lines 3502–3505):
when the result may have dirty high bits and the wrap flag is set, the
result is normalized via `makeSmallIntegerWrap`; the guarding assertion
requires the current type to be a small integer. -/
def wrapIfOverflows (possiblyOverflows wrapSmallIntegers : Bool)
    (currentType : TypeKind) (expr : Expr) : Option Expr :=
  if possiblyOverflows && wrapSmallIntegers then
    if currentType.isSmall && currentType.isInteger then
      makeSmallIntegerWrap expr currentType
    else
      none -- assertion failure in the source
  else
    some expr

/-- `wrapIfSmall` mirrors the recurring pattern
`if (toType.is(TypeFlags.SMALL)) expr = makeSmallIntegerWrap(expr, toType, module)`. -/
def wrapIfSmall (toType : TypeKind) (e : Expr) : Option Expr :=
  if toType.isSmall then makeSmallIntegerWrap e toType else some e

/-! ## Diagnostics -/

inductive DiagnosticCode where
  | Conversion_from_type_0_to_1_requires_an_explicit_cast
  | Type_0_is_not_assignable_to_type_1
  | A_function_whose_declared_type_is_not_void_must_return_a_value
  | Cannot_assign_to_0_because_it_is_a_constant_or_a_read_only_property
  | An_implementation_cannot_be_declared_in_ambient_contexts
  | Function_implementation_is_missing_or_not_immediately_following_the_declaration
  | Operation_not_supported
  deriving DecidableEq, Repr

/-! ## The conversion matrix (`convertExpression`)

Transcribed from compiler.ts lines 1933–2115. `ConversionKind.NONE` is
asserted against at entry and therefore excluded from the embedding.
`assignable` stands for the oracle result of
`fromType.isAssignableTo(toType)` (resolved in types.ts, outside src/);
it only influences the diagnostic, never the emitted expression. The
returned `Option` is `none` exactly where the source throws. -/

inductive ConversionKind where
  | implicit | explicit
  deriving DecidableEq, Repr

def convertExpression (is64 : Bool) (assignable : Bool) (expr : Expr)
    (fromType toType : TypeKind) (kind : ConversionKind) :
    List DiagnosticCode × Option Expr :=
  -- void to any
  if fromType = .void then
    ([.Type_0_is_not_assignable_to_type_1], some .unreachable)
  -- any to void
  else if toType = .void then
    ([], some (.drop expr))
  else
    let diags : List DiagnosticCode :=
      if kind = .implicit ∧ assignable = false then
        [.Conversion_from_type_0_to_1_requires_an_explicit_cast]
      else []
    let result : Option Expr :=
      if fromType.isFloat then
        -- float to float
        if toType.isFloat then
          if fromType = .f32 then
            if toType = .f64 then some (.unary .promoteF32 expr) else some expr
          else
            if toType = .f32 then some (.unary .demoteF64 expr) else some expr
        -- float to int
        else if toType.isInteger then
          if fromType = .f32 then
            if toType.isSigned then
              if toType.isLong is64 then some (.unary .truncF32ToI64 expr)
              else wrapIfSmall toType (.unary .truncF32ToI32 expr)
            else
              if toType.isLong is64 then some (.unary .truncF32ToU64 expr)
              else wrapIfSmall toType (.unary .truncF32ToU32 expr)
          else
            if toType.isSigned then
              if toType.isLong is64 then some (.unary .truncF64ToI64 expr)
              else wrapIfSmall toType (.unary .truncF64ToI32 expr)
            else
              if toType.isLong is64 then some (.unary .truncF64ToU64 expr)
              else wrapIfSmall toType (.unary .truncF64ToU32 expr)
        -- float to void: assert(toType.flags == NONE) fails, toType ≠ void here
        else none
      -- int to float
      else if fromType.isInteger ∧ toType.isFloat then
        if toType = .f32 then
          if fromType.isLong is64 then
            some (.unary (if fromType.isSigned then .convertI64ToF32 else .convertU64ToF32) expr)
          else
            some (.unary (if fromType.isSigned then .convertI32ToF32 else .convertU32ToF32) expr)
        else
          if fromType.isLong is64 then
            some (.unary (if fromType.isSigned then .convertI64ToF64 else .convertU64ToF64) expr)
          else
            some (.unary (if fromType.isSigned then .convertI32ToF64 else .convertU32ToF64) expr)
      -- int to int
      else
        if fromType.isLong is64 then
          -- i64 to i32: discards upper bits
          if ¬ toType.isLong is64 then
            wrapIfSmall toType (.unary .wrapI64 expr)
          else some expr
        -- i32 to i64
        else if toType.isLong is64 then
          some (.unary (if toType.isSigned then .extendI32 else .extendU32) expr)
        -- i32 or smaller to even smaller or same size int with change of sign
        else if toType.isSmall ∧
            (fromType.size is64 > toType.size is64 ∨
              (fromType.size is64 = toType.size is64 ∧ fromType.isSigned ≠ toType.isSigned)) then
          makeSmallIntegerWrap expr toType
        -- otherwise (smaller) i32/u32 to (same size) i32/u32
        else some expr
    (diags, result)

/-! ## A value semantics for the pure 32-bit fragment

Evaluates constants and the i32 arithmetic/bitwise operators, following
WebAssembly semantics (shift counts mod 32, `shrI32` is the arithmetic
shift). Values are unsigned 32-bit representatives. -/

def evalI32 : Expr → Option Int
  | .constI32 v => some (toU32 v)
  | .binary op l r => do
      let lv ← evalI32 l
      let rv ← evalI32 r
      match op with
      | .shlI32 => some (toU32 (lv * 2 ^ (rv % 32).toNat))
      | .shrI32 => some (toU32 (Int.fdiv (toS32 lv) (2 ^ (rv % 32).toNat)))
      | .shrU32 => some (lv / 2 ^ (rv % 32).toNat)
      | .andI32 => some ((lv.toNat &&& rv.toNat : Nat) : Int)
      | .addI32 => some (toU32 (lv + rv))
      | .subI32 => some (toU32 (lv - rv))
      | .mulI32 => some (toU32 (lv * rv))
      | _ => none
  | _ => none

/-! ### Semantic lemmas about the emitted wrap sequences -/

lemma evalI32_shlshr24 (v : Int) :
    evalI32 (.binary .shrI32 (.binary .shlI32 (.constI32 v) (.constI32 24)) (.constI32 24))
      = some (toU32 (((v + 128) % 256) - 128)) := by
  have hred :
      evalI32 (.binary .shrI32 (.binary .shlI32 (.constI32 v) (.constI32 24)) (.constI32 24))
        = some (toU32 (Int.fdiv (toS32 (toU32 (toU32 v * 2 ^ 24))) (2 ^ 24))) := rfl
  rw [hred]
  have h1 : toU32 (toU32 v * 2 ^ 24) = 2 ^ 24 * (v % 256) := by
    unfold toU32
    rw [show (4294967296 : Int) = 2 ^ 24 * 256 by norm_num,
        mul_comm (v % (2 ^ 24 * 256)) ((2 : Int) ^ 24),
        Int.mul_emod_mul_of_pos _ _ (by norm_num : (0 : Int) < 2 ^ 24),
        Int.emod_emod_of_dvd v (by norm_num : (256 : Int) ∣ 2 ^ 24 * 256)]
  rw [h1]
  have hu0 : 0 ≤ v % 256 := Int.emod_nonneg v (by norm_num)
  have hu1 : v % 256 < 256 := Int.emod_lt_of_pos v (by norm_num)
  rcases lt_or_le (v % 256) 128 with h | h
  · have hs : toS32 (2 ^ 24 * (v % 256)) = 2 ^ 24 * (v % 256) := by
      unfold toS32 toU32
      rw [Int.emod_eq_of_lt (by omega) (by omega)]
      simp only []
      rw [if_pos (by omega)]
    rw [hs, Int.mul_fdiv_cancel_left _ (by norm_num)]
    have he : ((v + 128) % 256) - 128 = v % 256 := by omega
    rw [he]
  · have hs : toS32 (2 ^ 24 * (v % 256)) = 2 ^ 24 * (v % 256 - 256) := by
      unfold toS32 toU32
      rw [Int.emod_eq_of_lt (by omega) (by omega)]
      simp only []
      rw [if_neg (by omega)]
      ring
    rw [hs, Int.mul_fdiv_cancel_left _ (by norm_num)]
    have he : ((v + 128) % 256) - 128 = v % 256 - 256 := by omega
    rw [he]

lemma evalI32_shlshr16 (v : Int) :
    evalI32 (.binary .shrI32 (.binary .shlI32 (.constI32 v) (.constI32 16)) (.constI32 16))
      = some (toU32 (((v + 32768) % 65536) - 32768)) := by
  have hred :
      evalI32 (.binary .shrI32 (.binary .shlI32 (.constI32 v) (.constI32 16)) (.constI32 16))
        = some (toU32 (Int.fdiv (toS32 (toU32 (toU32 v * 2 ^ 16))) (2 ^ 16))) := rfl
  rw [hred]
  have h1 : toU32 (toU32 v * 2 ^ 16) = 2 ^ 16 * (v % 65536) := by
    unfold toU32
    rw [show (4294967296 : Int) = 2 ^ 16 * 65536 by norm_num,
        mul_comm (v % (2 ^ 16 * 65536)) ((2 : Int) ^ 16),
        Int.mul_emod_mul_of_pos _ _ (by norm_num : (0 : Int) < 2 ^ 16),
        Int.emod_emod_of_dvd v (by norm_num : (65536 : Int) ∣ 2 ^ 16 * 65536)]
  rw [h1]
  have hu0 : 0 ≤ v % 65536 := Int.emod_nonneg v (by norm_num)
  have hu1 : v % 65536 < 65536 := Int.emod_lt_of_pos v (by norm_num)
  rcases lt_or_le (v % 65536) 32768 with h | h
  · have hs : toS32 (2 ^ 16 * (v % 65536)) = 2 ^ 16 * (v % 65536) := by
      unfold toS32 toU32
      rw [Int.emod_eq_of_lt (by omega) (by omega)]
      simp only []
      rw [if_pos (by omega)]
    rw [hs, Int.mul_fdiv_cancel_left _ (by norm_num)]
    have he : ((v + 32768) % 65536) - 32768 = v % 65536 := by omega
    rw [he]
  · have hs : toS32 (2 ^ 16 * (v % 65536)) = 2 ^ 16 * (v % 65536 - 65536) := by
      unfold toS32 toU32
      rw [Int.emod_eq_of_lt (by omega) (by omega)]
      simp only []
      rw [if_neg (by omega)]
      ring
    rw [hs, Int.mul_fdiv_cancel_left _ (by norm_num)]
    have he : ((v + 32768) % 65536) - 32768 = v % 65536 - 65536 := by omega
    rw [he]

lemma evalI32_and_mask (v : Int) (k : Nat) (hk32 : k ≤ 32) :
    evalI32 (.binary .andI32 (.constI32 v) (.constI32 (2 ^ k - 1)))
      = some (v % 2 ^ k) := by
  have hpowcast : ((2 ^ k : Nat) : Int) = 2 ^ k := by push_cast; ring
  have hpow1 : 1 ≤ (2 : Nat) ^ k := Nat.one_le_two_pow
  have hpow32 : (2 : Nat) ^ k ≤ 4294967296 := by
    calc (2 : Nat) ^ k ≤ 2 ^ 32 := Nat.pow_le_pow_right (by norm_num) hk32
    _ = 4294967296 := by norm_num
  have hred :
      evalI32 (.binary .andI32 (.constI32 v) (.constI32 (2 ^ k - 1)))
        = some (((toU32 v).toNat &&& (toU32 (2 ^ k - 1)).toNat : Nat) : Int) := rfl
  rw [hred]
  have hv0 : 0 ≤ toU32 v := Int.emod_nonneg v (by norm_num)
  have hm : (toU32 (2 ^ k - 1)).toNat = 2 ^ k - 1 := by
    unfold toU32
    rw [Int.emod_eq_of_lt (by omega) (by omega)]
    omega
  rw [hm, Nat.and_pow_two_sub_one_eq_mod]
  have hmod : toU32 v % 2 ^ k = v % 2 ^ k := by
    unfold toU32
    refine Int.emod_emod_of_dvd v ?_
    have hsplit : (2 : Int) ^ k ∣ 2 ^ 32 := pow_dvd_pow 2 hk32
    calc (2 : Int) ^ k ∣ 2 ^ 32 := hsplit
    _ = 4294967296 := by norm_num
  push_cast
  rw [Int.toNat_of_nonneg hv0, hmod]

/-- **C1.** For every expression of small-integer static type whose result
may have dirty high bits (`possiblyOverflows`), when the wrap flag is set
the compiler normalizes the emitted 32-bit IR value exactly as the claim
states: i8 by shl 24 / arithmetic shr 24, i16 by shl 16 / shr 16, u8 by
`& 0xff`, u16 by `& 0xffff`, bool by `& 0x1` — and these sequences indeed
compute the normalized value (sign-extension of the low 8/16 bits,
respectively reduction mod 2^8 / 2^16 / 2). -/
theorem small_integer_wrap_normalizes (e : Expr) (v : Int) :
    (wrapIfOverflows true true .i8 e
        = some (.binary .shrI32 (.binary .shlI32 e (.constI32 24)) (.constI32 24))
      ∧ evalI32 (.binary .shrI32 (.binary .shlI32 (.constI32 v) (.constI32 24)) (.constI32 24))
        = some (toU32 (((v + 128) % 256) - 128)))
  ∧ (wrapIfOverflows true true .i16 e
        = some (.binary .shrI32 (.binary .shlI32 e (.constI32 16)) (.constI32 16))
      ∧ evalI32 (.binary .shrI32 (.binary .shlI32 (.constI32 v) (.constI32 16)) (.constI32 16))
        = some (toU32 (((v + 32768) % 65536) - 32768)))
  ∧ (wrapIfOverflows true true .u8 e
        = some (.binary .andI32 e (.constI32 0xff))
      ∧ evalI32 (.binary .andI32 (.constI32 v) (.constI32 0xff)) = some (v % 256))
  ∧ (wrapIfOverflows true true .u16 e
        = some (.binary .andI32 e (.constI32 0xffff))
      ∧ evalI32 (.binary .andI32 (.constI32 v) (.constI32 0xffff)) = some (v % 65536))
  ∧ (wrapIfOverflows true true .bool e
        = some (.binary .andI32 e (.constI32 0x1))
      ∧ evalI32 (.binary .andI32 (.constI32 v) (.constI32 0x1)) = some (v % 2)) := by
  refine ⟨⟨rfl, evalI32_shlshr24 v⟩, ⟨rfl, evalI32_shlshr16 v⟩, ⟨rfl, ?_⟩, ⟨rfl, ?_⟩, ⟨rfl, ?_⟩⟩
  · have h := evalI32_and_mask v 8 (by norm_num)
    norm_num at h ⊢
    exact h
  · have h := evalI32_and_mask v 16 (by norm_num)
    norm_num at h ⊢
    exact h
  · have h := evalI32_and_mask v 1 (by norm_num)
    norm_num at h ⊢
    exact h

/-! ## Functions, signatures, trampolines (`ensureTrampoline`, `makeCallDirect`)

Transcribed from compiler.ts lines 4013–4154. A `Func` carries its lazily
cached trampoline, mirroring `original.trampoline`. Default-initializer
expressions of omitted parameters are compiled in the trampoline scope by
`compileExpression`; the embedding abstracts that compilation as a map
`compileInit` from the parameter index to the compiled initializer. -/

structure Signature where
  parameterTypes : List TypeKind
  returnType : TypeKind
  thisType : Option TypeKind
  requiredParameters : Nat

inductive Func where
  | mk (internalName : String) (signature : Signature) (isInstance : Bool)
       (isImported : Bool) (trampoline : Option Func)

def Func.internalName : Func → String
  | .mk n _ _ _ _ => n

def Func.signature : Func → Signature
  | .mk _ s _ _ _ => s

def Func.isInstance : Func → Bool
  | .mk _ _ i _ _ => i

def Func.isImported : Func → Bool
  | .mk _ _ _ i _ => i

def Func.trampoline : Func → Option Func
  | .mk _ _ _ _ t => t

/-- `options.nativeSizeType`. -/
def nativeSizeType (is64 : Bool) : NativeType :=
  if is64 then .i64 else .i32

/-- The nested-block jump-table body of a trampoline (compiler.ts lines
4074–4114): a `br_table` over the number of optional arguments provided,
falling through the default initializers of the omitted parameters and
finally calling the original. -/
def trampolineBody (is64 : Bool) (compileInit : Nat → Expr) (original : Func) : Expr :=
  let sig := original.signature
  let minArguments := sig.requiredParameters
  let maxArguments := sig.parameterTypes.length
  let thisCount := if original.isInstance then 1 else 0
  let minOperands := minArguments + thisCount
  let maxOperands := maxArguments + thisCount
  let numOptional := maxOperands - minOperands
  let names := (List.range (numOptional + 1)).map (fun i => "N=" ++ toString i)
  let start : Expr := .block (some ("N=" ++ toString 0))
    [ .block (some "N=invalid")
        [ .switch names "N=invalid" (.getLocal maxOperands .i32) ] .none,
      .unreachable ] .none
  let body := (List.range numOptional).foldl
    (fun acc i =>
      Expr.block (some ("N=" ++ toString (i + 1)))
        [ acc,
          .setLocal (minOperands + i) (compileInit (minArguments + i)) ] .none)
    start
  let forwardedOperands : List Expr :=
    (if original.isInstance then [Expr.getLocal 0 (nativeSizeType is64)] else [])
    ++ (List.range minArguments).map
        (fun i => Expr.getLocal (thisCount + i)
          ((sig.parameterTypes.getD i .void).toNativeType is64))
    ++ (List.range numOptional).map
        (fun i => Expr.getLocal (minOperands + i)
          ((sig.parameterTypes.getD (minArguments + i) .void).toNativeType is64))
  .block none
    [ body,
      .call original.internalName forwardedOperands (sig.returnType.toNativeType is64) ]
    (sig.returnType.toNativeType is64)

/-- `ensureTrampoline`: returns the cached trampoline if present, else
synthesizes one — name `<original>|trampoline`, parameter list the original
list plus one trailing i32, all parameters required — and caches it.
Returns the (possibly updated) original together with the trampoline. -/
def ensureTrampoline (original : Func) : Func × Func :=
  match original with
  | .mk _ _ _ _ (some t) => (original, t)
  | .mk name sig inst imp none =>
      let maxArguments := sig.parameterTypes.length
      let trampolineParameterTypes := sig.parameterTypes ++ [TypeKind.i32]
      let trampolineSignature : Signature :=
        { parameterTypes := trampolineParameterTypes,
          returnType := sig.returnType,
          thisType := sig.thisType,
          requiredParameters := maxArguments + 1 }
      let trampolineName := name ++ "|trampoline"
      let trampoline : Func := .mk trampolineName trampolineSignature inst imp none
      (.mk name sig inst imp (some trampoline), trampoline)

/-- `makeCallDirect` (compiler.ts lines 4120–4154): pads a direct call
that supplies fewer operands than the callee can accept by routing it
through the trampoline, filling each omitted argument slot with the
parameter type's zero constant and appending the count of provided
optional arguments as a trailing i32 operand. `none` models the
`assert(numOperands >= minOperands)` failure. The `compileFunction`
calls are assumed to succeed (they only set flags and emit the callee). -/
def makeCallDirect (is64 : Bool) (instance_ : Func) (operands : List Expr) :
    Option (Func × Expr) :=
  let numOperands := operands.length
  let minArguments := instance_.signature.requiredParameters
  let maxArguments := instance_.signature.parameterTypes.length
  let thisCount := if instance_.isInstance then 1 else 0
  let minOperands := minArguments + thisCount
  let maxOperands := maxArguments + thisCount
  let numArguments := numOperands - thisCount
  if numOperands < minOperands then none
  else if numOperands < maxOperands then
    let et := ensureTrampoline instance_
    let tramp := et.2
    let padded := operands ++
      ((List.range maxArguments).drop numArguments).map
        (fun i => (tramp.signature.parameterTypes.getD i .void).toNativeZero is64)
    let ops := padded ++ [Expr.constI32 ((numOperands - minOperands : Nat) : Int)]
    let returnType := tramp.signature.returnType
    some (et.1,
      if tramp.isImported then
        .callImport tramp.internalName ops (returnType.toNativeType is64)
      else
        .call tramp.internalName ops (returnType.toNativeType is64))
  else
    let returnType := instance_.signature.returnType
    some (instance_,
      if instance_.isImported then
        .callImport instance_.internalName operands (returnType.toNativeType is64)
      else
        .call instance_.internalName operands (returnType.toNativeType is64))

/-- **C4.** For every integer-to-integer conversion inserted by
`convertExpression`: long source to non-long target emits an i64-wrap
followed by a small-integer wrap if the target is small; non-long source
to long target emits a sign-extension when the target is signed and a
zero-extension otherwise; in the remaining cases a small-integer wrap is
emitted if and only if the target is small and either the source is wider
or both have the same size but different signedness. -/
theorem convertExpression_int_to_int (is64 assignable : Bool) (kind : ConversionKind)
    (expr : Expr) (fromType toType : TypeKind)
    (hf : fromType.isInteger = true) (ht : toType.isInteger = true) :
    (fromType.isLong is64 = true → toType.isLong is64 = false →
      (convertExpression is64 assignable expr fromType toType kind).2
        = (if toType.isSmall then makeSmallIntegerWrap (.unary .wrapI64 expr) toType
           else some (.unary .wrapI64 expr)))
  ∧ (fromType.isLong is64 = false → toType.isLong is64 = true →
      (convertExpression is64 assignable expr fromType toType kind).2
        = some (.unary (if toType.isSigned then .extendI32 else .extendU32) expr))
  ∧ (fromType.isLong is64 = false → toType.isLong is64 = false →
      ((toType.isSmall ∧
          (fromType.size is64 > toType.size is64 ∨
            (fromType.size is64 = toType.size is64 ∧ fromType.isSigned ≠ toType.isSigned))) →
        (convertExpression is64 assignable expr fromType toType kind).2
          = makeSmallIntegerWrap expr toType)
    ∧ (¬ (toType.isSmall ∧
          (fromType.size is64 > toType.size is64 ∨
            (fromType.size is64 = toType.size is64 ∧ fromType.isSigned ≠ toType.isSigned))) →
        (convertExpression is64 assignable expr fromType toType kind).2
          = some expr))
  ∧ (fromType.isLong is64 = true → toType.isLong is64 = true →
      (convertExpression is64 assignable expr fromType toType kind).2 = some expr) := by
  have hfv : ¬ fromType = .void := by cases fromType <;> simp_all [TypeKind.isInteger]
  have htv : ¬ toType = .void := by cases toType <;> simp_all [TypeKind.isInteger]
  have hff : fromType.isFloat = false := by
    cases fromType <;> simp_all [TypeKind.isInteger, TypeKind.isFloat]
  have htf : toType.isFloat = false := by
    cases toType <;> simp_all [TypeKind.isInteger, TypeKind.isFloat]
  refine ⟨?_, ?_, ?_, ?_⟩
  · intro h1 h2
    simp [convertExpression, hfv, htv, hff, htf, h1, h2, wrapIfSmall]
  · intro h1 h2
    simp [convertExpression, hfv, htv, hff, htf, h1, h2]
  · intro h1 h2
    constructor
    · intro hc
      simp [convertExpression, hfv, htv, hff, htf, h1, h2, hc]
    · intro hc
      simp [convertExpression, hfv, htv, hff, htf, h1, h2, hc]
  · intro h1 h2
    simp [convertExpression, hfv, htv, hff, htf, h1, h2]

/-- Witness for C4 at a concrete input: converting an i64 operand to u8 on
a 32-bit target emits the i64-wrap followed by the `& 0xff` mask. -/
theorem convertExpression_int_to_int_witness :
    (convertExpression false true (.getLocal 0 .i64) .i64 .u8 .implicit).2
      = some (.binary .andI32 (.unary .wrapI64 (.getLocal 0 .i64)) (.constI32 0xff)) := by
  have h := (convertExpression_int_to_int false true .implicit
    (.getLocal 0 .i64) .i64 .u8 rfl rfl).1 rfl rfl
  rw [h]
  rfl

/-- **C2.** For every direct call that supplies fewer operands than the
callee's full operand count (parameters plus `this`), the compiler lazily
synthesizes at most one trampoline per callee, named
`<original>|trampoline`, whose parameter list is the original list plus
one trailing i32; the call site is padded so the number of operands
equals the trampoline's full operand count, each omitted slot filled with
the parameter type's zero constant, and the trailing i32 operand equals
the number of optional arguments actually provided. -/
theorem trampoline_synthesis_and_call_padding (is64 : Bool) (f : Func)
    (operands : List Expr)
    (hcache : f.trampoline = none) (himp : f.isImported = false)
    (hmin : f.signature.requiredParameters + (if f.isInstance then 1 else 0)
              ≤ operands.length)
    (hmax : operands.length
              < f.signature.parameterTypes.length + (if f.isInstance then 1 else 0)) :
    (ensureTrampoline f).2.internalName = f.internalName ++ "|trampoline"
  ∧ (ensureTrampoline f).2.signature.parameterTypes
      = f.signature.parameterTypes ++ [.i32]
  ∧ (ensureTrampoline f).2.signature.returnType = f.signature.returnType
  ∧ (ensureTrampoline f).1.trampoline = some (ensureTrampoline f).2
  ∧ ensureTrampoline (ensureTrampoline f).1
      = ((ensureTrampoline f).1, (ensureTrampoline f).2)
  ∧ ∃ ops : List Expr,
      makeCallDirect is64 f operands
        = some ((ensureTrampoline f).1,
            .call ((ensureTrampoline f).2.internalName) ops
              (f.signature.returnType.toNativeType is64))
    ∧ ops = operands
        ++ ((List.range f.signature.parameterTypes.length).drop
              (operands.length - (if f.isInstance then 1 else 0))).map
            (fun i => (f.signature.parameterTypes.getD i .void).toNativeZero is64)
        ++ [.constI32 ((operands.length
              - (f.signature.requiredParameters + (if f.isInstance then 1 else 0)) : Nat) : Int)]
    ∧ ops.length = (ensureTrampoline f).2.signature.parameterTypes.length
        + (if f.isInstance then 1 else 0) := by
  obtain ⟨name, sig, inst, imp, tr⟩ := f
  simp only [Func.trampoline] at hcache
  subst hcache
  simp only [Func.isImported] at himp
  subst himp
  simp only [Func.signature, Func.isInstance, Func.internalName] at hmin hmax ⊢
  refine ⟨rfl, rfl, rfl, rfl, rfl, ?_⟩
  have hmapeq : ((List.range sig.parameterTypes.length).drop
        (operands.length - (if inst then 1 else 0))).map
          (fun i => ((sig.parameterTypes ++ [TypeKind.i32]).getD i .void).toNativeZero is64)
      = ((List.range sig.parameterTypes.length).drop
        (operands.length - (if inst then 1 else 0))).map
          (fun i => (sig.parameterTypes.getD i .void).toNativeZero is64) := by
    refine List.map_congr_left ?_
    intro i hi
    have hilt : i < sig.parameterTypes.length :=
      List.mem_range.mp (List.mem_of_mem_drop hi)
    rw [List.getD_append _ _ _ _ hilt]
  have hn1 : ¬ (operands.length < sig.requiredParameters + (if inst then 1 else 0)) := by
    omega
  refine ⟨operands
      ++ ((List.range sig.parameterTypes.length).drop
            (operands.length - (if inst then 1 else 0))).map
          (fun i => (sig.parameterTypes.getD i .void).toNativeZero is64)
      ++ [.constI32 ((operands.length
            - (sig.requiredParameters + (if inst then 1 else 0)) : Nat) : Int)], ?_, rfl, ?_⟩
  · simp only [makeCallDirect, ensureTrampoline, Func.signature, Func.isInstance,
      Func.isImported, Func.internalName, hn1, hmax, if_true, if_false, ite_true,
      ite_false, Bool.false_eq_true, if_neg, not_false_iff]
    rw [hmapeq]
  · simp only [List.length_append, List.length_map, List.length_drop,
      List.length_range, List.length_cons, List.length_nil, ensureTrampoline,
      Func.signature]
    omega

/-- Witness for C2 at a concrete input: a two-parameter function `g` with
one required parameter, called with one operand. -/
theorem trampoline_synthesis_and_call_padding_witness :
    (Func.mk "g" ⟨[.i32, .i32], .i32, none, 1⟩ false false none).trampoline = none
  ∧ (ensureTrampoline
        (Func.mk "g" ⟨[.i32, .i32], .i32, none, 1⟩ false false none)).2.internalName
      = "g" ++ "|trampoline" :=
  ⟨rfl,
    (trampoline_synthesis_and_call_padding false
      (Func.mk "g" ⟨[.i32, .i32], .i32, none, 1⟩ false false none)
      [Expr.constI32 1] rfl rfl (by decide) (by decide)).1⟩

/-! ## The flow analyzer

`Flow` lives in program.ts, which is not part of src/. It is modelled from
the spec (§4.3): a per-construct frame of flags {RETURNS, POSSIBLY_BREAKS,
POSSIBLY_CONTINUES, POSSIBLY_THROWS} plus the current break/continue
labels (or none); a child frame pushed by `enterBranchOrScope` starts with
clear flags and inherits the enclosing labels; `leaveBranchOrScope`
restores the parent, which the statement compilers then update
explicitly. Only the presence of a label matters for the flags, so labels
are modelled as booleans; the label strings appearing in the emitted IR
are generated from the break context in the statement compilers. -/

structure Flow where
  returns : Bool
  possiblyBreaks : Bool
  possiblyContinues : Bool
  possiblyThrows : Bool
  hasBreakLabel : Bool
  hasContinueLabel : Bool
  deriving DecidableEq, Repr

def Flow.enterBranchOrScope (f : Flow) : Flow :=
  { f with returns := false, possiblyBreaks := false,
           possiblyContinues := false, possiblyThrows := false }

/-- Modelled from the spec: finalizing a function's flow reports whether
all exit paths are proved to return. -/
def Flow.finalize (f : Flow) : Bool := f.returns

/-- The root flow of a freshly compiled function body. -/
def initialFlow : Flow :=
  { returns := false, possiblyBreaks := false, possiblyContinues := false,
    possiblyThrows := false, hasBreakLabel := false, hasContinueLabel := false }

/-! ## Statements and their flow effects

A statement skeleton carrying exactly the information the flow analyzer
consumes; `flowStmt` mirrors the flag bookkeeping of the
`compileXyzStatement` family (compiler.ts lines 1244–1716 and 1445–1521):
blocks and if-arms and loop and switch-case bodies run in a child frame,
`do` shares the enclosing frame, `return` and `throw` set RETURNS, `for`
propagates RETURNS when the condition is omitted and the body returns,
`while` never propagates (`false && ...` in the source), `switch`
propagates when a default exists and every case falls through (i.e. is
not the last case) or returns. -/

inductive Stmt where
  | blockStmt (stmts : List Stmt)
  | ifStmt (ifTrue : Stmt) (ifFalse : Option Stmt)
  | retStmt
  | throwStmt
  | whileStmt (body : Stmt)
  | doStmt (body : Stmt)
  | forStmt (hasCondition : Bool) (body : Stmt)
  | switchStmt (cases : List (Bool × List Stmt))
  | breakStmt (hasLabel : Bool)
  | continueStmt (hasLabel : Bool)
  | exprStmt
  | emptyStmt

/-- The child frame of a loop body: fresh flags, both labels set. -/
def loopFlow (f : Flow) : Flow :=
  { f.enterBranchOrScope with hasBreakLabel := true, hasContinueLabel := true }

/-- The child frame of a switch case body: fresh flags, break label set. -/
def switchCaseFlow (f : Flow) : Flow :=
  { f.enterBranchOrScope with hasBreakLabel := true }

mutual

def flowStmt (f : Flow) : Stmt → Flow
  | .blockStmt stmts =>
      let child := flowStmts f.enterBranchOrScope stmts
      if child.returns then { f with returns := true } else f
  | .ifStmt ifTrue ifFalse =>
      let ct := flowStmt f.enterBranchOrScope ifTrue
      match ifFalse with
      | some e =>
          let ce := flowStmt f.enterBranchOrScope e
          if ct.returns && ce.returns then { f with returns := true } else f
      | none => f
  | .retStmt => { f with returns := true }
  | .throwStmt => { f with possiblyThrows := true, returns := true }
  | .whileStmt body =>
      let child := loopFlow f
      let _ := flowStmt child body
      f
  | .doStmt body =>
      let f1 := { f with hasBreakLabel := true, hasContinueLabel := true }
      let f2 := flowStmt f1 body
      { f2 with hasBreakLabel := f.hasBreakLabel,
                hasContinueLabel := f.hasContinueLabel }
  | .forStmt hasCondition body =>
      let child := loopFlow f
      let child2 := flowStmt child body
      let alwaysReturns := !hasCondition && child2.returns
      if alwaysReturns then { f with returns := true } else f
  | .switchStmt cases =>
      let rets := flowCases (switchCaseFlow f) cases
      let n := cases.length
      let hasDefault := cases.any (fun c => !c.1)
      let alwaysReturns := (List.range n).all
        (fun i => decide (i ≠ n - 1) || rets.getD i false)
      if hasDefault && alwaysReturns then { f with returns := true } else f
  | .breakStmt hasLabel =>
      if hasLabel then f
      else if f.hasBreakLabel then { f with possiblyBreaks := true } else f
  | .continueStmt hasLabel =>
      if hasLabel then f
      else if f.hasContinueLabel then { f with possiblyContinues := true } else f
  | .exprStmt => f
  | .emptyStmt => f

def flowStmts (f : Flow) : List Stmt → Flow
  | [] => f
  | s :: rest => flowStmts (flowStmt f s) rest

def flowCases (f : Flow) : List (Bool × List Stmt) → List Bool
  | [] => []
  | c :: rest => (flowStmts f c.2).returns :: flowCases f rest

end

/-! ## Function compilation (`compileFunction`) -/

/-- The inputs of `compileFunction` that decide its diagnostics and module
effects (compiler.ts lines 807–882). Ranges are abstract identifiers. -/
structure FuncDecl where
  hasBody : Bool
  isDeclared : Bool
  returnType : TypeKind
  returnTypeRange : Nat
  nameRange : Nat
  body : Stmt

structure CompileFunctionResult where
  diagnostics : List (DiagnosticCode × Nat)
  addedFunction : Bool
  addedImport : Bool
  ok : Bool
  deriving DecidableEq, Repr

/-- `compileFunction`: short-circuits when already COMPILED; with a body,
lowers it under a fresh flow, finalizes the flow, and emits the
"must return a value" diagnostic at the declared return type when the
return type is non-void and not all paths return — then still adds the
function to the module and reports success. -/
def compileFunction (alreadyCompiled : Bool) (d : FuncDecl) : CompileFunctionResult :=
  if alreadyCompiled then
    { diagnostics := [], addedFunction := false, addedImport := false, ok := true }
  else
    let modifierDiags : List (DiagnosticCode × Nat) :=
      if d.hasBody then
        if d.isDeclared then
          [(.An_implementation_cannot_be_declared_in_ambient_contexts, d.nameRange)]
        else []
      else
        if ¬ d.isDeclared then
          [(.Function_implementation_is_missing_or_not_immediately_following_the_declaration,
            d.nameRange)]
        else []
    if d.hasBody then
      let flow := flowStmt initialFlow d.body
      let allBranchesReturn := flow.finalize
      let returnDiags : List (DiagnosticCode × Nat) :=
        if d.returnType ≠ .void ∧ allBranchesReturn = false then
          [(.A_function_whose_declared_type_is_not_void_must_return_a_value,
            d.returnTypeRange)]
        else []
      { diagnostics := modifierDiags ++ returnDiags,
        addedFunction := true, addedImport := false, ok := true }
    else
      { diagnostics := modifierDiags,
        addedFunction := false, addedImport := true, ok := true }

/-! ## The `for` statement (`compileForStatement`, lines 1352–1399)

Sub-expression compilation is abstracted: the compiled initializer,
condition and incrementor expressions and the compiled body are passed
in; the flow effect of the body is computed from its statement skeleton.
An omitted condition is compiled as the constant i32 1. -/

def compileForStatement (initializer condition incrementor : Option Expr)
    (bodyStmt : Stmt) (bodyExpr : Expr) (f : Flow) (ctx : Nat) : Expr × Flow :=
  let child : Flow := loopFlow f
  let breakLabel := "break|" ++ toString ctx
  let continueLabel := "continue|" ++ toString ctx
  let initExpr := initializer.getD Expr.nop
  let condExpr := condition.getD (Expr.constI32 1)
  let incrExpr := incrementor.getD Expr.nop
  let child2 := flowStmt child bodyStmt
  let alwaysReturns := condition.isNone && child2.returns
  let expr : Expr := .block (some breakLabel)
    [ initExpr,
      .loop continueLabel (.block none
        [ .ifElse condExpr
            (.block none [bodyExpr, incrExpr, .breakTo continueLabel none] .none)
            none ] .none) ] .none
  if alwaysReturns then
    (.block none [expr, .unreachable] .none, { f with returns := true })
  else
    (expr, f)

/-- **C3.** For every function compiled with a body whose declared return
type is not void, if finalizing the flow does not prove that all exit
paths return, the "A function whose declared type is not void must return
a value" diagnostic is emitted at the declared return type, and
compilation continues: the function is still added to the module and
compilation reports success. -/
theorem nonvoid_body_not_all_paths_return_diagnostic (d : FuncDecl)
    (hbody : d.hasBody = true) (hret : d.returnType ≠ .void)
    (hflow : (flowStmt initialFlow d.body).finalize = false) :
    (DiagnosticCode.A_function_whose_declared_type_is_not_void_must_return_a_value,
        d.returnTypeRange) ∈ (compileFunction false d).diagnostics
  ∧ (compileFunction false d).addedFunction = true
  ∧ (compileFunction false d).ok = true := by
  unfold compileFunction
  simp [hbody, hflow, hret]

/-- Witness for C3: a non-void function whose body is a bare expression
statement receives the diagnostic and is still added to the module. -/
theorem nonvoid_body_not_all_paths_return_diagnostic_witness :
    ({ hasBody := true, isDeclared := false, returnType := .i32,
       returnTypeRange := 7, nameRange := 3, body := .exprStmt } : FuncDecl).hasBody = true
  ∧ (DiagnosticCode.A_function_whose_declared_type_is_not_void_must_return_a_value, 7)
      ∈ (compileFunction false
          { hasBody := true, isDeclared := false, returnType := .i32,
            returnTypeRange := 7, nameRange := 3, body := .exprStmt }).diagnostics :=
  ⟨rfl,
    (nonvoid_body_not_all_paths_return_diagnostic
      { hasBody := true, isDeclared := false, returnType := .i32,
        returnTypeRange := 7, nameRange := 3, body := .exprStmt }
      rfl (by simp) (by simp [flowStmt, initialFlow, Flow.finalize])).1⟩

/-- **C8.** A `for` statement with an omitted condition compiles the
condition as the constant i32 1; if the loop body's flow sets RETURNS,
the parent flow has RETURNS set after the statement, the emitted loop is
wrapped in a block with a trailing unreachable hint, and a non-void
function whose body is such a loop receives no diagnostic. -/
theorem for_omitted_condition_always_returns (init incr : Option Expr)
    (bodyStmt : Stmt) (bodyExpr : Expr) (f : Flow) (ctx : Nat)
    (hbody : (flowStmt (loopFlow f) bodyStmt).returns = true) :
    (compileForStatement init none incr bodyStmt bodyExpr f ctx).2.returns = true
  ∧ (compileForStatement init none incr bodyStmt bodyExpr f ctx).1
      = .block none
          [ .block (some ("break|" ++ toString ctx))
              [ init.getD .nop,
                .loop ("continue|" ++ toString ctx) (.block none
                  [ .ifElse (.constI32 1)
                      (.block none
                        [ bodyExpr, incr.getD .nop,
                          .breakTo ("continue|" ++ toString ctx) none ] .none)
                      none ] .none) ] .none,
            .unreachable ] .none
  ∧ (flowStmt f (.forStmt false bodyStmt)).returns = true
  ∧ ∀ rtRange nameRange : Nat,
      (compileFunction false
        { hasBody := true, isDeclared := false, returnType := .i32,
          returnTypeRange := rtRange, nameRange := nameRange,
          body := .forStmt false bodyStmt }).diagnostics = [] := by
  have hchild : loopFlow f = loopFlow initialFlow := rfl
  refine ⟨?_, ?_, ?_, ?_⟩
  · simp [compileForStatement, hbody]
  · simp [compileForStatement, hbody]
  · rw [flowStmt]
    simp [hbody]
  · intro rtRange nameRange
    have hflow : (flowStmt initialFlow (.forStmt false bodyStmt)).finalize = true := by
      rw [flowStmt]
      simp only [Flow.finalize]
      rw [hchild] at hbody
      simp [hbody]
    simp [compileFunction, hflow]

/-- Witness for C8: `for (;;) { return }` in a non-void function: RETURNS
propagates and no diagnostic is emitted. -/
theorem for_omitted_condition_always_returns_witness :
    (flowStmt (loopFlow initialFlow) .retStmt).returns = true
  ∧ (compileForStatement none none none .retStmt (.ret none) initialFlow 0).2.returns
      = true :=
  ⟨by simp [flowStmt], by
    exact (for_omitted_condition_always_returns none none .retStmt (.ret none)
      initialFlow 0 (by simp [flowStmt])).1⟩

/-- Looking up the flow result of a single switch case. -/
lemma flowCases_getD (f : Flow) (cases : List (Bool × List Stmt)) (i : Nat)
    (h : i < cases.length) :
    (flowCases f cases).getD i false
      = (flowStmts f (cases.getD i (true, [])).2).returns := by
  induction cases generalizing i with
  | nil => simp at h
  | cons c rest ih =>
      cases i with
      | zero => rw [flowCases]; rfl
      | succ j =>
          rw [flowCases]
          simp only [List.getD_cons_succ]
          exact ih j (by simpa using h)

/-- **C9.** For every `switch` statement that has a default case, if every
case body either falls through (in the source's sense: it is not the last
case, so control flows into the next case block) or returns, then after
compiling the statement the parent flow has RETURNS set. -/
theorem switch_with_default_all_cases_return (f : Flow)
    (cases : List (Bool × List Stmt))
    (hdefault : cases.any (fun c => !c.1) = true)
    (hcases : ∀ i, i < cases.length →
      i ≠ cases.length - 1 ∨
      (flowStmts (switchCaseFlow f) (cases.getD i (true, [])).2).returns = true) :
    (flowStmt f (.switchStmt cases)).returns = true := by
  have hall : (List.range cases.length).all
      (fun i => decide (i ≠ cases.length - 1) ||
        (flowCases (switchCaseFlow f) cases).getD i false)
      = true := by
    rw [List.all_eq_true]
    intro i hi
    have hilt : i < cases.length := List.mem_range.mp hi
    rcases hcases i hilt with h | h
    · simp [h]
    · rw [flowCases_getD _ _ _ hilt, h]
      simp
  rw [flowStmt]
  simp only [hdefault, hall, Bool.and_self, Bool.true_and, if_true]

/-- Witness for C9: a two-case switch whose non-last case is labeled and
whose last case is the default and returns. -/
theorem switch_with_default_all_cases_return_witness :
    ([(true, [Stmt.retStmt]), (false, [Stmt.retStmt])].any (fun c => !c.1) = true)
  ∧ (flowStmt initialFlow
      (.switchStmt [(true, [Stmt.retStmt]), (false, [Stmt.retStmt])])).returns = true :=
  ⟨by decide, by
    exact switch_with_default_all_cases_return initialFlow
      [(true, [Stmt.retStmt]), (false, [Stmt.retStmt])] (by decide)
      (by
        intro i hi
        have hi2 : i = 0 ∨ i = 1 := by
          simp only [List.length_cons, List.length_nil] at hi
          omega
        rcases hi2 with h | h <;> subst h
        · exact Or.inl (by decide)
        · exact Or.inr (by simp [flowStmts, flowStmt]))⟩

/-! ## Memory layout (`addMemorySegment`) and string interning
(`compileStaticString`) -/

structure MemorySegment where
  buffer : List Nat
  offset : Nat
  deriving DecidableEq, Repr

structure CompilerMem where
  memoryOffset : Nat
  memorySegments : List MemorySegment
  stringSegments : List (List Nat × MemorySegment)
  deriving DecidableEq, Repr

/-- Modelled from the spec (`i64_align` of the portable library is not in
src/): the cursor is rounded up to the next multiple of the alignment. -/
def alignUp (x a : Nat) : Nat := ((x + a - 1) / a) * a

/-- The compiler constructor (compiler.ts lines 226–228): the memory
cursor starts at `max(memoryBase, usizeType.byteSize)`, leaving space for
`null`. -/
def initialMem (memoryBase usizeByteSize : Nat) : CompilerMem :=
  { memoryOffset := max memoryBase usizeByteSize,
    memorySegments := [], stringSegments := [] }

/-- `addMemorySegment` (compiler.ts lines 1130–1137): aligns the cursor,
records the segment, and advances the cursor past the buffer. -/
def addMemorySegment (st : CompilerMem) (buffer : List Nat) (alignment : Nat) :
    MemorySegment × CompilerMem :=
  let memoryOffset := alignUp st.memoryOffset alignment
  let segment : MemorySegment := { buffer := buffer, offset := memoryOffset }
  (segment,
   { st with
      memorySegments := st.memorySegments ++ [segment],
      memoryOffset := memoryOffset + buffer.length })

/-- A sequence of `addMemorySegment` calls (buffer, alignment). -/
def runSegments (st : CompilerMem) : List (List Nat × Nat) → CompilerMem
  | [] => st
  | r :: rest => runSegments (addMemorySegment st r.1 r.2).2 rest

/-- The backing buffer of a string segment (compiler.ts lines 4511–4520):
a 4-byte little-endian length prefix followed by the UTF-16 code units,
two bytes each, little-endian. Source strings are modelled as their lists
of UTF-16 code units. -/
def stringBuffer (s : List Nat) : List Nat :=
  let stringLength := s.length
  [ stringLength &&& 0xff,
    (stringLength >>> 8) &&& 0xff,
    (stringLength >>> 16) &&& 0xff,
    (stringLength >>> 24) &&& 0xff ]
  ++ s.flatMap (fun c => [c &&& 0xff, (c >>> 8) &&& 0xff])

/-- `compileStaticString` (compiler.ts lines 4508–4532): looks the string
up in the intern map; on a miss builds the buffer, allocates one segment
aligned to the pointer byte size, and records it; returns the segment
offset the expression evaluates to. -/
def compileStaticString (usizeByteSize : Nat) (st : CompilerMem) (s : List Nat) :
    Nat × CompilerMem :=
  match st.stringSegments.lookup s with
  | some stringSegment => (stringSegment.offset, st)
  | none =>
      let stringBuf := stringBuffer s
      let r := addMemorySegment st stringBuf usizeByteSize
      (r.1.offset,
       { r.2 with stringSegments := (s, r.1) :: r.2.stringSegments })

/-! ### Alignment helper lemmas -/

lemma alignUp_ge (x a : Nat) (ha : 0 < a) : x ≤ alignUp x a := by
  unfold alignUp
  rw [Nat.mul_comm]
  set t := (x + a - 1) / a with ht
  set r := (x + a - 1) % a with hr
  have h : a * t + r = x + a - 1 := Nat.div_add_mod _ _
  have hlt : r < a := Nat.mod_lt _ ha
  set m := a * t with hm
  omega

lemma alignUp_mod (x a : Nat) : alignUp x a % a = 0 := by
  unfold alignUp
  exact Nat.mul_mod_left _ _

/-- `runSegments` only appends segments. -/
lemma runSegments_append (reqs : List (List Nat × Nat)) (st : CompilerMem) :
    ∃ tail, (runSegments st reqs).memorySegments = st.memorySegments ++ tail := by
  induction reqs generalizing st with
  | nil => exact ⟨[], by simp [runSegments]⟩
  | cons r rest ih =>
      obtain ⟨tail, htail⟩ := ih (addMemorySegment st r.1 r.2).2
      refine ⟨[{ buffer := r.1, offset := alignUp st.memoryOffset r.2 }] ++ tail, ?_⟩
      rw [runSegments, htail]
      simp [addMemorySegment]

/-- Invariant-carrying specification of a sequence of `addMemorySegment`
calls: offsets stay below the cursor, above the lower bound, are
pairwise non-decreasing in call order, and each new segment's offset is
aligned to its request's alignment. -/
lemma runSegments_spec (lb : Nat) (reqs : List (List Nat × Nat)) (st : CompilerMem)
    (ha : ∀ r ∈ reqs, 0 < r.2)
    (hcur : ∀ seg ∈ st.memorySegments, seg.offset ≤ st.memoryOffset)
    (hlb : lb ≤ st.memoryOffset)
    (hlbs : ∀ seg ∈ st.memorySegments, lb ≤ seg.offset)
    (hpw : st.memorySegments.Pairwise (fun a b => a.offset ≤ b.offset)) :
    (∀ seg ∈ (runSegments st reqs).memorySegments,
        seg.offset ≤ (runSegments st reqs).memoryOffset)
  ∧ lb ≤ (runSegments st reqs).memoryOffset
  ∧ (∀ seg ∈ (runSegments st reqs).memorySegments, lb ≤ seg.offset)
  ∧ (runSegments st reqs).memorySegments.Pairwise (fun a b => a.offset ≤ b.offset)
  ∧ (runSegments st reqs).memorySegments.length
      = st.memorySegments.length + reqs.length
  ∧ ∀ i, i < reqs.length →
      ((runSegments st reqs).memorySegments.getD
          (st.memorySegments.length + i) ⟨[], 0⟩).offset
        % (reqs.getD i ([], 0)).2 = 0 := by
  induction reqs generalizing st with
  | nil =>
      refine ⟨hcur, hlb, hlbs, hpw, by simp [runSegments], ?_⟩
      intro i hi
      simp at hi
  | cons r rest ih =>
      have har : 0 < r.2 := ha r (by simp)
      have harest : ∀ q ∈ rest, 0 < q.2 := fun q hq => ha q (by simp [hq])
      have halign : st.memoryOffset ≤ alignUp st.memoryOffset r.2 :=
        alignUp_ge _ _ har
      set st' := (addMemorySegment st r.1 r.2).2 with hst'
      have hsegs' : st'.memorySegments
          = st.memorySegments ++ [⟨r.1, alignUp st.memoryOffset r.2⟩] := rfl
      have hoff' : st'.memoryOffset = alignUp st.memoryOffset r.2 + r.1.length := rfl
      have hcur' : ∀ seg ∈ st'.memorySegments, seg.offset ≤ st'.memoryOffset := by
        intro seg hseg
        rw [hsegs'] at hseg
        rw [hoff']
        rcases List.mem_append.mp hseg with h | h
        · have := hcur seg h
          omega
        · simp at h
          subst h
          simp
      have hlb' : lb ≤ st'.memoryOffset := by rw [hoff']; omega
      have hlbs' : ∀ seg ∈ st'.memorySegments, lb ≤ seg.offset := by
        intro seg hseg
        rw [hsegs'] at hseg
        rcases List.mem_append.mp hseg with h | h
        · exact hlbs seg h
        · simp at h
          subst h
          simpa using le_trans hlb halign
      have hpw' : st'.memorySegments.Pairwise (fun a b => a.offset ≤ b.offset) := by
        rw [hsegs', List.pairwise_append]
        refine ⟨hpw, by simp, ?_⟩
        intro a hab b hb
        simp at hb
        subst hb
        have := hcur a hab
        simpa using le_trans this halign
      have hrun : runSegments st (r :: rest) = runSegments st' rest := rfl
      obtain ⟨c1, c2, c3, c4, c5, c6⟩ := ih st' harest hcur' hlb' hlbs' hpw'
      rw [hrun]
      refine ⟨c1, c2, c3, c4, ?_, ?_⟩
      · rw [c5, hsegs']
        simp
        omega
      · intro i hi
        cases i with
        | zero =>
            obtain ⟨tail, htail⟩ := runSegments_append rest st'
            rw [htail, hsegs']
            have hlen : st.memorySegments.length + 0
                = st.memorySegments.length := rfl
            rw [hlen, List.append_assoc,
              List.getD_append_right _ _ _ _ (le_refl _)]
            simp [alignUp_mod]
        | succ j =>
            have hj : j < rest.length := by simpa using Nat.lt_of_succ_lt_succ hi
            have := c6 j hj
            rw [hsegs'] at this
            simp only [List.length_append, List.length_cons, List.length_nil] at this
            have hidx : st.memorySegments.length + 1 + j
                = st.memorySegments.length + (j + 1) := by omega
            rw [← hidx]
            simpa using this

/-- **C7.** The memory cursor starts at `max(memoryBase, pointer byte
size)`, so every segment offset handed out is at least the pointer size
and address 0 is never allocated; for every sequence of
`addMemorySegment` calls with positive alignments, the assigned offsets
are monotonically non-decreasing in call order and each offset is
aligned to its segment's requested alignment. -/
theorem memory_offsets_monotone_aligned_nonzero (memoryBase usizeByteSize : Nat)
    (reqs : List (List Nat × Nat))
    (hptr : 0 < usizeByteSize) (ha : ∀ r ∈ reqs, 0 < r.2) :
    (initialMem memoryBase usizeByteSize).memoryOffset
      = max memoryBase usizeByteSize
  ∧ (∀ seg ∈ (runSegments (initialMem memoryBase usizeByteSize) reqs).memorySegments,
      usizeByteSize ≤ seg.offset ∧ 0 < seg.offset)
  ∧ (runSegments (initialMem memoryBase usizeByteSize) reqs).memorySegments.Pairwise
      (fun a b => a.offset ≤ b.offset)
  ∧ (runSegments (initialMem memoryBase usizeByteSize) reqs).memorySegments.length
      = reqs.length
  ∧ ∀ i, i < reqs.length →
      ((runSegments (initialMem memoryBase usizeByteSize) reqs).memorySegments.getD
          i ⟨[], 0⟩).offset % (reqs.getD i ([], 0)).2 = 0 := by
  have hinit : usizeByteSize ≤ (initialMem memoryBase usizeByteSize).memoryOffset := by
    simp [initialMem]
  obtain ⟨c1, c2, c3, c4, c5, c6⟩ := runSegments_spec usizeByteSize reqs
    (initialMem memoryBase usizeByteSize) ha (by simp [initialMem]) hinit
    (by simp [initialMem]) (by simp [initialMem])
  refine ⟨rfl, ?_, c4, by simpa [initialMem] using c5, ?_⟩
  · intro seg hseg
    have := c3 seg hseg
    exact ⟨this, by omega⟩
  · intro i hi
    have := c6 i hi
    simpa [initialMem] using this

/-- Witness for C7 at a concrete sequence: base 0, pointer size 4, two
segments of 5 and 3 bytes with alignments 4 and 8. -/
theorem memory_offsets_monotone_aligned_nonzero_witness :
    ((0:Nat) < 4 ∧ ∀ r ∈ [([0,1,2,3,4], 4), ([9,9,9], 8)], 0 < r.2)
  ∧ (runSegments (initialMem 0 4) [([0,1,2,3,4], 4), ([9,9,9], 8)]).memorySegments.Pairwise
      (fun a b => a.offset ≤ b.offset) :=
  ⟨⟨by decide, by decide⟩,
    (memory_offsets_monotone_aligned_nonzero 0 4 [([0,1,2,3,4], 4), ([9,9,9], 8)]
      (by decide) (by decide)).2.2.1⟩

/-! ### String buffer lemmas -/

lemma flatMapTwo_length (s : List Nat) (f g : Nat → Nat) :
    (s.flatMap (fun c => [f c, g c])).length = 2 * s.length := by
  induction s with
  | nil => rfl
  | cons a t ih =>
      rw [List.flatMap_cons]
      simp only [List.length_append, List.length_cons, List.length_nil, ih]
      omega

lemma flatMapTwo_getD (s : List Nat) (f g : Nat → Nat) (i : Nat) (h : i < s.length) :
    (s.flatMap (fun c => [f c, g c])).getD (2 * i) 0 = f (s.getD i 0)
  ∧ (s.flatMap (fun c => [f c, g c])).getD (2 * i + 1) 0 = g (s.getD i 0) := by
  induction s generalizing i with
  | nil => simp at h
  | cons a t ih =>
      cases i with
      | zero =>
          rw [List.flatMap_cons]
          exact ⟨rfl, rfl⟩
      | succ j =>
          have hj : j < t.length := by simpa using h
          obtain ⟨h1, h2⟩ := ih j hj
          have hlen2 : ([f a, g a] : List Nat).length = 2 := rfl
          constructor
          · rw [List.flatMap_cons, List.getD_append_right _ _ _ _ (by omega), hlen2,
              show 2 * (j + 1) - 2 = 2 * j from by omega, List.getD_cons_succ]
            exact h1
          · rw [List.flatMap_cons, List.getD_append_right _ _ _ _ (by omega), hlen2,
              show 2 * (j + 1) + 1 - 2 = 2 * j + 1 from by omega, List.getD_cons_succ]
            exact h2

lemma and_255_eq_mod (c : Nat) : c &&& 255 = c % 256 := by
  have h := Nat.and_pow_two_sub_one_eq_mod c 8
  norm_num at h
  exact h

/-- **C5.** For every string literal, one memory segment of `4 + 2*length`
bytes is allocated: a 4-byte little-endian length prefix followed by the
UTF-16 code units (two little-endian bytes each); the expression
evaluates to the segment's offset; a later identical literal allocates no
segment and evaluates to the same offset. -/
theorem string_literal_interning (usizeByteSize : Nat) (st : CompilerMem)
    (s : List Nat)
    (hnew : st.stringSegments.lookup s = none)
    (hunits : ∀ c ∈ s, c < 65536)
    (hlen : s.length < 4294967296) :
    (compileStaticString usizeByteSize st s).2.memorySegments
      = st.memorySegments
        ++ [⟨stringBuffer s, alignUp st.memoryOffset usizeByteSize⟩]
  ∧ (stringBuffer s).length = 4 + 2 * s.length
  ∧ ((stringBuffer s).getD 0 0 + 256 * (stringBuffer s).getD 1 0
      + 65536 * (stringBuffer s).getD 2 0
      + 16777216 * (stringBuffer s).getD 3 0 = s.length)
  ∧ (∀ i, i < s.length →
      (stringBuffer s).getD (4 + 2 * i) 0
        + 256 * (stringBuffer s).getD (5 + 2 * i) 0 = s.getD i 0)
  ∧ (compileStaticString usizeByteSize st s).1
      = alignUp st.memoryOffset usizeByteSize
  ∧ compileStaticString usizeByteSize (compileStaticString usizeByteSize st s).2 s
      = ((compileStaticString usizeByteSize st s).1,
         (compileStaticString usizeByteSize st s).2) := by
  refine ⟨?_, ?_, ?_, ?_, ?_, ?_⟩
  · simp [compileStaticString, hnew, addMemorySegment]
  · show ([ s.length &&& 255, (s.length >>> 8) &&& 255,
        (s.length >>> 16) &&& 255, (s.length >>> 24) &&& 255 ]
        ++ s.flatMap (fun c => [c &&& 255, (c >>> 8) &&& 255])).length
      = 4 + 2 * s.length
    rw [List.length_append,
      flatMapTwo_length s (fun c => c &&& 255) (fun c => (c >>> 8) &&& 255)]
    simp
  · have h0 : (stringBuffer s).getD 0 0 = s.length &&& 255 := rfl
    have h1 : (stringBuffer s).getD 1 0 = (s.length >>> 8) &&& 255 := rfl
    have h2 : (stringBuffer s).getD 2 0 = (s.length >>> 16) &&& 255 := rfl
    have h3 : (stringBuffer s).getD 3 0 = (s.length >>> 24) &&& 255 := rfl
    rw [h0, h1, h2, h3, and_255_eq_mod, and_255_eq_mod, and_255_eq_mod, and_255_eq_mod,
      Nat.shiftRight_eq_div_pow, Nat.shiftRight_eq_div_pow, Nat.shiftRight_eq_div_pow]
    norm_num
    omega
  · intro i hi
    have hpre : stringBuffer s
        = [ s.length &&& 255, (s.length >>> 8) &&& 255,
            (s.length >>> 16) &&& 255, (s.length >>> 24) &&& 255 ]
          ++ s.flatMap (fun c => [c &&& 255, (c >>> 8) &&& 255]) := rfl
    have hgets : (stringBuffer s).getD (4 + 2 * i) 0
        = (s.flatMap (fun c => [c &&& 255, (c >>> 8) &&& 255])).getD (2 * i) 0 := by
      rw [hpre, List.getD_append_right _ _ _ _
        (by simp only [List.length_cons, List.length_nil]; omega)]
      simp only [List.length_cons, List.length_nil]
      congr 1
      omega
    have hgets' : (stringBuffer s).getD (5 + 2 * i) 0
        = (s.flatMap (fun c => [c &&& 255, (c >>> 8) &&& 255])).getD (2 * i + 1) 0 := by
      rw [hpre, List.getD_append_right _ _ _ _
        (by simp only [List.length_cons, List.length_nil]; omega)]
      simp only [List.length_cons, List.length_nil]
      congr 1
      omega
    have hflat1 : (s.flatMap (fun c => [c &&& 255, (c >>> 8) &&& 255])).getD (2 * i) 0
        = s.getD i 0 &&& 255 :=
      (flatMapTwo_getD s (fun c => c &&& 255) (fun c => (c >>> 8) &&& 255) i hi).1
    have hflat2 : (s.flatMap (fun c => [c &&& 255, (c >>> 8) &&& 255])).getD (2 * i + 1) 0
        = (s.getD i 0 >>> 8) &&& 255 :=
      (flatMapTwo_getD s (fun c => c &&& 255) (fun c => (c >>> 8) &&& 255) i hi).2
    rw [hgets, hgets', hflat1, hflat2]
    have hmem : s.getD i 0 ∈ s := by
      rw [List.getD_eq_getElem _ _ hi]
      exact List.getElem_mem hi
    have hc := hunits _ hmem
    have e1 : s.getD i 0 &&& 255 = s.getD i 0 % 256 := and_255_eq_mod _
    have e2 : (s.getD i 0 >>> 8) &&& 255 = (s.getD i 0 >>> 8) % 256 := and_255_eq_mod _
    have e3 : s.getD i 0 >>> 8 = s.getD i 0 / 256 := by
      rw [Nat.shiftRight_eq_div_pow]
    omega
  · simp [compileStaticString, hnew, addMemorySegment]
  · have hfirst : (compileStaticString usizeByteSize st s).2.stringSegments
        = (s, ⟨stringBuffer s, alignUp st.memoryOffset usizeByteSize⟩)
          :: st.stringSegments := by
      simp [compileStaticString, hnew, addMemorySegment]
    have hlook : (compileStaticString usizeByteSize st s).2.stringSegments.lookup s
        = some ⟨stringBuffer s, alignUp st.memoryOffset usizeByteSize⟩ := by
      rw [hfirst]
      simp [List.lookup]
    simp [compileStaticString, hlook, hnew, addMemorySegment]

/-- Witness for C5: the string "hi" (code units 104, 105) interned twice
from an empty state with pointer size 4. -/
theorem string_literal_interning_witness :
    (([] : List (List Nat × MemorySegment)).lookup [104, 105] = none)
  ∧ (stringBuffer [104, 105]).length = 4 + 2 * 2 :=
  ⟨rfl,
    (string_literal_interning 4
      { memoryOffset := 4, memorySegments := [], stringSegments := [] }
      [104, 105] rfl (by decide) (by decide)).2.1⟩

/-! ## Assignment lowering (`compileAssignmentWithValue`, lines 3585–3628)

The LOCAL and GLOBAL target cases, transcribed from the source. The
element kind and flags come from the Program resolver; `compileGlobalOk`
stands for the success of the `compileGlobal` call guarding the GLOBAL
case. The result carries the emitted diagnostics, the resulting
`currentType`, and the emitted expression. -/

inductive ResolvedTarget where
  | localTarget (internalName : String) (index : Nat) (type : TypeKind)
      (isConstant : Bool)
  | globalTarget (internalName : String) (type : TypeKind) (isConstant : Bool)
  deriving DecidableEq, Repr

def ResolvedTarget.isConstant : ResolvedTarget → Bool
  | .localTarget _ _ _ c => c
  | .globalTarget _ _ c => c

def ResolvedTarget.type : ResolvedTarget → TypeKind
  | .localTarget _ _ t _ => t
  | .globalTarget _ t _ => t

def compileAssignmentWithValue (is64 : Bool) (target : ResolvedTarget)
    (compileGlobalOk : Bool) (currentTypeIn : TypeKind)
    (valueWithCorrectType : Expr) (tee : Bool) (range : Nat) :
    List (DiagnosticCode × Nat) × TypeKind × Expr :=
  match target with
  | .localTarget _ index type isConstant =>
      let currentType := if tee then type else .void
      if isConstant then
        ([(.Cannot_assign_to_0_because_it_is_a_constant_or_a_read_only_property, range)],
         currentType, .unreachable)
      else
        ([], currentType,
         if tee then .teeLocal index valueWithCorrectType
         else .setLocal index valueWithCorrectType)
  | .globalTarget internalName type isConstant =>
      if compileGlobalOk = false then
        ([], currentTypeIn, .unreachable)
      else
        let currentType := if tee then type else .void
        if isConstant then
          ([(.Cannot_assign_to_0_because_it_is_a_constant_or_a_read_only_property, range)],
           currentType, .unreachable)
        else
          ([], currentType,
           if tee then
             .block none
               [ .setGlobal internalName valueWithCorrectType,
                 .getGlobal internalName (type.toNativeType is64) ]
               (type.toNativeType is64)
           else .setGlobal internalName valueWithCorrectType)

/-- **C10.** For every assignment whose resolved target is a local or a
global carrying the CONSTANT flag, the compiler emits the "Cannot assign
to ... because it is a constant or a read-only property" diagnostic and
returns an unreachable expression — so no set-local, tee-local or
set-global is emitted; the rejection applies to constant globals exactly
as to constant locals. -/
theorem constant_assignment_rejected (is64 : Bool) (target : ResolvedTarget)
    (currentTypeIn : TypeKind) (value : Expr) (tee : Bool) (range : Nat)
    (hconst : target.isConstant = true) :
    compileAssignmentWithValue is64 target true currentTypeIn value tee range
      = ([(.Cannot_assign_to_0_because_it_is_a_constant_or_a_read_only_property, range)],
         (if tee then target.type else .void), .unreachable) := by
  cases target with
  | localTarget n i t c =>
      simp only [ResolvedTarget.isConstant] at hconst
      subst hconst
      rfl
  | globalTarget n t c =>
      simp only [ResolvedTarget.isConstant] at hconst
      subst hconst
      rfl

/-- Witness for C10: assigning to a constant global (and nothing weaker
than a constant local) produces the diagnostic and an unreachable. -/
theorem constant_assignment_rejected_witness :
    (ResolvedTarget.globalTarget "K" .i32 true).isConstant = true
  ∧ compileAssignmentWithValue false (.globalTarget "K" .i32 true) true .void
      (.constI32 1) false 11
      = ([(.Cannot_assign_to_0_because_it_is_a_constant_or_a_read_only_property, 11)],
         .void, .unreachable) :=
  ⟨rfl,
    constant_assignment_rejected false (.globalTarget "K" .i32 true) .void
      (.constI32 1) false 11 rfl⟩

/-! ## Inlined constants (`compileInlineConstant`, lines 1725–1796, and the
GLOBAL case of `compileIdentifierExpression`, lines 4335–4348)

The constant cache of a variable-like element holds a 64-bit integer as a
(low, high) pair of signed 32-bit words, exactly like the portable i64
used by the source; `i64_low` is the `low` projection. JavaScript 32-bit
operator semantics (`<< s >> s`, `& mask`) are made explicit. -/

inductive ConstantValueKind where
  | noValue | integer | float
  deriving DecidableEq, Repr

structure I64Val where
  low : Int
  high : Int
  deriving DecidableEq, Repr

structure VariableLikeElement where
  type : TypeKind
  isInlined : Bool
  constantValueKind : ConstantValueKind
  constantIntegerValue : I64Val
  constantFloatValue : Int
  deriving DecidableEq, Repr

/-- Modelled from the spec: `computeSmallIntegerShift(Type.i32)` is the
shift that positions a small integer at the top of an i32, i.e. 32 minus
the type's bit size (24 for i8, 16 for i16; types.ts is not in src/). -/
def computeSmallIntegerShift (t : TypeKind) (is64 : Bool) : Nat :=
  32 - t.size is64

/-- Modelled from the spec: `computeSmallIntegerMask(Type.i32)` is the
all-ones mask of the type's bit size (0xff for u8, 0xffff for u16, 0x1
for bool; types.ts is not in src/). -/
def computeSmallIntegerMask (t : TypeKind) (is64 : Bool) : Nat :=
  2 ^ t.size is64 - 1

/-- JavaScript `(v << s) >> s` on 32-bit integers: shift left modulo
2^32, then arithmetic shift right of the signed value. -/
def jsShlShr (v : Int) (s : Nat) : Int :=
  Int.fdiv (toS32 (v * 2 ^ (s % 32))) (2 ^ (s % 32))

/-- JavaScript `v & mask` for a non-negative mask below 2^31. -/
def jsAnd (v : Int) (mask : Nat) : Int :=
  ((toU32 v).toNat &&& mask : Nat)

/-- `compileInlineConstant`: when not retaining the type and both the
element type and the contextual type are integers with the element
strictly smaller, the contextual type is selected ("essentially
precomputes a (sign-)extension" per the source comment); the literal is
then built from the cached constant according to the selected kind.
Returns the resulting `currentType` and the literal (`none` models the
"concrete type expected" throw). -/
def compileInlineConstant (is64 : Bool) (element : VariableLikeElement)
    (contextualType : TypeKind) (retainType : Bool) :
    TypeKind × Option Expr :=
  let selected : TypeKind :=
    if ¬ retainType ∧ element.type.isInteger = true
        ∧ contextualType.isInteger = true
        ∧ element.type.size is64 < contextualType.size is64 then
      contextualType
    else element.type
  (selected,
   match selected with
   | .i8 | .i16 =>
       let shift := computeSmallIntegerShift element.type is64
       some (.constI32
         (if element.constantValueKind = .integer then
            jsShlShr element.constantIntegerValue.low shift
          else 0))
   | .u8 | .u16 | .bool =>
       let mask := computeSmallIntegerMask element.type is64
       some (.constI32
         (if element.constantValueKind = .integer then
            jsAnd element.constantIntegerValue.low mask
          else 0))
   | .i32 | .u32 =>
       some (.constI32
         (if element.constantValueKind = .integer then
            element.constantIntegerValue.low
          else 0))
   | .isize | .usize =>
       if is64 = false then
         some (.constI32
           (if element.constantValueKind = .integer then
              element.constantIntegerValue.low
            else 0))
       else
         some (if element.constantValueKind = .integer then
            .constI64 element.constantIntegerValue.low element.constantIntegerValue.high
          else .constI64 0 0)
   | .i64 | .u64 =>
       some (if element.constantValueKind = .integer then
          .constI64 element.constantIntegerValue.low element.constantIntegerValue.high
        else .constI64 0 0)
   | .f32 => some (.constF32 element.constantFloatValue)
   | .f64 => some (.constF64 element.constantFloatValue)
   | .void => none)

/-- The GLOBAL case of `compileIdentifierExpression` for a non-builtin
global whose `compileGlobal` succeeded with a concrete type: an INLINED
global expands through `compileInlineConstant`, any other global reads
through get-global. -/
def compileIdentifierGlobal (is64 : Bool) (g : VariableLikeElement)
    (internalName : String) (contextualType : TypeKind)
    (retainConstantType : Bool) : TypeKind × Option Expr :=
  if g.isInlined then
    compileInlineConstant is64 g contextualType retainConstantType
  else
    (g.type, some (.getGlobal internalName (g.type.toNativeType is64)))

/-- **C6 (failing input).** An INLINED i8 global with cached constant −56
(low word 0xFFFFFFC8, high word 0 — the precomputed value of an i8
initialized with 200) reads, under contextual type i64 with implicit
conversion, as the literal `i64.const` with high word 0, i.e. the value
4294967240 — not the cached constant normalized (sign-extended) to the
declared type i8, which is −56 and would need high word −1. In its own
type context the same global does read as the sign-extended −56, and in
any case the read is a literal, never a get-global. -/
theorem inlined_i8_widened_to_i64_not_sign_extended :
    compileIdentifierGlobal false
        ⟨.i8, true, .integer, ⟨-56, 0⟩, 0⟩ "K" .i64 false
      = (.i64, some (.constI64 (-56) 0))
  ∧ Expr.constI64 (-56) 0 ≠ Expr.constI64 (-56) (-1)
  ∧ compileIdentifierGlobal false
        ⟨.i8, true, .integer, ⟨-56, 0⟩, 0⟩ "K" .i8 true
      = (.i8, some (.constI32 (-56))) := by
  refine ⟨rfl, ?_, ?_⟩
  · intro h
    simp only [Expr.constI64.injEq] at h
    omega
  · rfl

end Compiler
